import Mathlib

/-!
Verification development for the copters convex-optimization engine
(LP/QP Mehrotra predictor-corrector core).

The source is shallowly embedded: the f64 scalar type is modelled by an
exact extended-rational type with the IEEE special values, columns are
lists, sparse matrices are dense row lists, and the external faer kernels
(AMD ordering, LDLT factorization, triangular solves, norms) are abstracted
as explicit parameters of the functions that call them.
-/

/-- Model of the scalar type E = f64 from src/lib.rs: an exact rational
together with the IEEE special values plus-infinity, minus-infinity and NaN.
Rounding is idealized away; the special-value propagation rules follow IEEE. -/
inductive E where
  | fin (q : Rat)
  | pinf
  | ninf
  | nan
deriving DecidableEq, Repr

/-- IEEE negation. -/
def fneg : E → E
  | E.fin q => E.fin (-q)
  | E.pinf => E.ninf
  | E.ninf => E.pinf
  | E.nan => E.nan

/-- IEEE addition (exact on finite values). -/
def fadd : E → E → E
  | E.nan, _ => E.nan
  | _, E.nan => E.nan
  | E.fin a, E.fin b => E.fin (a + b)
  | E.fin _, E.pinf => E.pinf
  | E.pinf, E.fin _ => E.pinf
  | E.fin _, E.ninf => E.ninf
  | E.ninf, E.fin _ => E.ninf
  | E.pinf, E.pinf => E.pinf
  | E.ninf, E.ninf => E.ninf
  | E.pinf, E.ninf => E.nan
  | E.ninf, E.pinf => E.nan

/-- IEEE subtraction. -/
def fsub (a b : E) : E := fadd a (fneg b)

/-- IEEE multiplication (exact on finite values); zero times infinity is NaN. -/
def fmul : E → E → E
  | E.nan, _ => E.nan
  | _, E.nan => E.nan
  | E.fin a, E.fin b => E.fin (a * b)
  | E.fin a, E.pinf => if 0 < a then E.pinf else if a < 0 then E.ninf else E.nan
  | E.pinf, E.fin a => if 0 < a then E.pinf else if a < 0 then E.ninf else E.nan
  | E.fin a, E.ninf => if 0 < a then E.ninf else if a < 0 then E.pinf else E.nan
  | E.ninf, E.fin a => if 0 < a then E.ninf else if a < 0 then E.pinf else E.nan
  | E.pinf, E.pinf => E.pinf
  | E.ninf, E.ninf => E.pinf
  | E.pinf, E.ninf => E.ninf
  | E.ninf, E.pinf => E.ninf

/-- IEEE division (exact on finite values); division by zero yields a signed
infinity (rationals have no signed zero, so the positive zero is used),
zero over zero is NaN, infinity over infinity is NaN. -/
def fdiv : E → E → E
  | E.nan, _ => E.nan
  | _, E.nan => E.nan
  | E.fin a, E.fin b =>
      if b = 0 then (if a = 0 then E.nan else if 0 < a then E.pinf else E.ninf)
      else E.fin (a / b)
  | E.fin _, E.pinf => E.fin 0
  | E.fin _, E.ninf => E.fin 0
  | E.pinf, E.fin b => if b < 0 then E.ninf else E.pinf
  | E.ninf, E.fin b => if b < 0 then E.pinf else E.ninf
  | E.pinf, E.pinf => E.nan
  | E.pinf, E.ninf => E.nan
  | E.ninf, E.pinf => E.nan
  | E.ninf, E.ninf => E.nan

/-- IEEE strict comparison: any comparison with NaN is false. -/
def flt : E → E → Bool
  | E.nan, _ => false
  | _, E.nan => false
  | E.fin a, E.fin b => decide (a < b)
  | E.fin _, E.pinf => true
  | E.fin _, E.ninf => false
  | E.pinf, _ => false
  | E.ninf, E.pinf => true
  | E.ninf, E.fin _ => true
  | E.ninf, E.ninf => false

/-- IEEE non-strict comparison: any comparison with NaN is false. -/
def fle : E → E → Bool
  | E.nan, _ => false
  | _, E.nan => false
  | E.fin a, E.fin b => decide (a ≤ b)
  | E.fin _, E.pinf => true
  | E.fin _, E.ninf => false
  | E.pinf, E.pinf => true
  | E.pinf, _ => false
  | E.ninf, _ => true

/-- The minimum as computed by f64 min in Rust: if one argument is NaN the
other argument is returned, otherwise the smaller one. -/
def fmin (a b : E) : E :=
  if flt a b then a else if b = E.nan then a else b

/-- Finiteness test, as f64 is-finite. -/
def fisFinite : E → Bool
  | E.fin _ => true
  | _ => false

/-- The clamp of f64 in Rust: move below-lo up to lo, above-hi down to hi;
NaN propagates because both comparisons are false on NaN. -/
def fclamp (x lo hi : E) : E :=
  if flt x lo then lo else if flt hi x then hi else x

/-- Cubing, as pow with integer exponent 3 from num-traits. -/
def fpow3 (x : E) : E := fmul (fmul x x) x

/-- Componentwise negation of a column. -/
def vneg (v : List E) : List E := v.map fneg

/-- Componentwise sum of two columns. -/
def vadd (a b : List E) : List E := List.zipWith fadd a b

/-- Componentwise difference of two columns. -/
def vsub (a b : List E) : List E := List.zipWith fsub a b

/-- Scalar times column. -/
def vscale (c : E) (v : List E) : List E := v.map (fun x => fmul c x)

/-- Componentwise product, from src/linalg/vector_ops.rs cwise_multiply. -/
def cwise_multiply (a b : List E) : List E := List.zipWith fmul a b

/-- Modelled from the spec: the helper cwise_multiply_finite is used by
src/lp/mod.rs, src/qp/mod.rs, src/lp/mpc/mod.rs and src/lp/mpc/mu_update.rs
but its body is absent from the vector-ops source in src/.  Per the spec,
componentwise products mask infinite entries: an index whose factor is not
finite contributes exactly zero. -/
def cwise_multiply_finite (a b : List E) : List E :=
  List.zipWith (fun x y => if fisFinite x && fisFinite y then fmul x y else E.fin 0) a b

/-- Componentwise quotient, from src/linalg/vector_ops.rs cwise_quotient. -/
def cwise_quotient (a b : List E) : List E := List.zipWith fdiv a b

/-- Componentwise reciprocal, from src/linalg/vector_ops.rs cwise_inverse. -/
def cwise_inverse (v : List E) : List E := v.map (fun x => fdiv (E.fin 1) x)

/-- Minimum entry of a column starting from plus-infinity, from
src/linalg/vector_ops.rs col_min. -/
def col_min (v : List E) : E := v.foldl fmin E.pinf

/-- Sum of the entries of a column (faer sum, folded from zero). -/
def vsum (v : List E) : E := v.foldl fadd (E.fin 0)

/-- Dot product of two columns. -/
def dotE (a b : List E) : E := vsum (cwise_multiply a b)

/-- Dense model of sparse matrix times column: the matrix is a list of rows. -/
def matVec (A : List (List E)) (x : List E) : List E := A.map (fun r => dotE r x)

/-- Dense model of the transpose of the matrix applied to a column of length
equal to the number of rows; n is the number of columns of the matrix. -/
def matTVec (n : Nat) (A : List (List E)) (y : List E) : List E :=
  (List.zip y A).foldl (fun acc p => vadd acc (vscale p.1 p.2)) (List.replicate n (E.fin 0))

/-- Every entry of the column is finite. -/
def all_finite (v : List E) : Bool := v.all fisFinite

/-- Status codes from src/lib.rs. -/
inductive Status where
  | InProgress
  | Optimal
  | Infeasible
  | Unbounded
  | Unknown
  | TimeLimit
  | IterationLimit
  | Interrupted
deriving DecidableEq, Repr

/-- A linear program in standard form, from src/lp/mod.rs; the sparse CSC
matrix is modelled densely as a list of m rows of n entries. -/
structure LinearProgram where
  c : List E
  A : List (List E)
  b : List E
  l : List E
  u : List E
deriving DecidableEq, Repr

/-- Number of variables (length of c), from LinearProgram get_n_vars. -/
def LinearProgram.n_vars (lp : LinearProgram) : Nat := lp.c.length

/-- Number of constraints (length of b), from LinearProgram get_n_cons. -/
def LinearProgram.n_cons (lp : LinearProgram) : Nat := lp.b.length

/-- A quadratic program, from src/qp/mod.rs. -/
structure QuadraticProgram where
  Q : List (List E)
  c : List E
  A : List (List E)
  b : List E
  l : List E
  u : List E
deriving DecidableEq, Repr

/-- KKT residuals, from the Residual struct of src/lp/mpc/mod.rs. -/
structure Residual where
  dual_feasibility : List E
  primal_feasibility : List E
  cs_lower : List E
  cs_upper : List E
deriving DecidableEq, Repr

/-- A primal-dual search direction, from the Step struct of src/lp/mpc/mod.rs. -/
structure Step where
  dx : List E
  dy : List E
  dz_l : List E
  dz_u : List E
deriving DecidableEq, Repr

/-- The solver iterate, from SolverState; the infeasibility fields are the
scalar residual norms recorded at the end of each iteration
(src/lp/mpc/mod.rs lines 163 to 166). -/
structure SolverState where
  status : Status
  nit : Nat
  x : List E
  y : List E
  z_l : List E
  z_u : List E
  alpha_primal : E
  alpha_dual : E
  sigma : E
  mu : E
  safety_factor : E
  primal_infeasibility : E
  dual_infeasibility : E
  complimentary_slack_lower : E
  complimentary_slack_upper : E
deriving DecidableEq, Repr

/-- Setter set_sigma_mu on the solver state. -/
def SolverState.set_sigma_mu (s : SolverState) (sig m : E) : SolverState :=
  { s with sigma := sig, mu := m }

/-- Setter set_safety_factor on the solver state. -/
def SolverState.set_safety_factor (s : SolverState) (eta : E) : SolverState :=
  { s with safety_factor := eta }

/-- Setter set_status on the solver state. -/
def SolverState.set_status (s : SolverState) (st : Status) : SolverState :=
  { s with status := st }

/-- The KKT residual computed by the MPC driver itself,
MehrotraPredictorCorrector compute_residual, src/lp/mpc/mod.rs lines 96 to 110:
dual feasibility c - A^T y - z_l - z_u, primal feasibility b - A x,
complementarity -Z_l (x - l) and -Z_u (x - u) with infinite entries masked. -/
def MehrotraPredictorCorrector.compute_residual (lp : LinearProgram) (state : SolverState) : Residual :=
  { dual_feasibility :=
      vsub (vsub (vsub lp.c (matTVec lp.n_vars lp.A state.y)) state.z_l) state.z_u
  , primal_feasibility := vsub lp.b (matVec lp.A state.x)
  , cs_lower := vneg (cwise_multiply_finite state.z_l (vsub state.x lp.l))
  , cs_upper := vneg (cwise_multiply_finite state.z_u (vsub state.x lp.u)) }

/-- The KKT residual of the OptimizationProgram implementation for
LinearProgram, src/lp/mod.rs lines 170 to 178: dual feasibility
-c + A^T y + z_l + z_u, primal feasibility A x - b. -/
def LinearProgram.compute_residual (lp : LinearProgram) (state : SolverState) : Residual :=
  { dual_feasibility :=
      vadd (vadd (vadd (vneg lp.c) (matTVec lp.n_vars lp.A state.y)) state.z_l) state.z_u
  , primal_feasibility := vsub (matVec lp.A state.x) lp.b
  , cs_lower := vneg (cwise_multiply_finite state.z_l (vsub state.x lp.l))
  , cs_upper := vneg (cwise_multiply_finite state.z_u (vsub state.x lp.u)) }

/-- The KKT residual of the OptimizationProgram implementation for
QuadraticProgram, src/qp/mod.rs lines 91 to 103: dual feasibility
-Qx - c + A^T y + z_l + z_u. -/
def QuadraticProgram.compute_residual (qp : QuadraticProgram) (state : SolverState) : Residual :=
  { dual_feasibility :=
      vadd (vadd (vadd (vsub (vneg (matVec qp.Q state.x)) qp.c)
        (matTVec qp.c.length qp.A state.y)) state.z_l) state.z_u
  , primal_feasibility := vsub (matVec qp.A state.x) qp.b
  , cs_lower := vneg (cwise_multiply_finite state.z_l (vsub state.x qp.l))
  , cs_upper := vneg (cwise_multiply_finite state.z_u (vsub state.x qp.u)) }

/-- The residual under the sign convention stated by the spec, written from
the words of the spec for comparison with the code: r_d is minus (c + Qx)
plus A^T y plus z_l plus z_u, r_p is A x minus b, and the complementarity
residuals are minus Z (x minus bound) with infinite-bound entries zero.
The Qx column is passed explicitly so the same definition covers LP (zero
column) and QP. -/
def spec_residual (c : List E) (A : List (List E)) (b l u Qx : List E) (state : SolverState) : Residual :=
  { dual_feasibility :=
      vadd (vadd (vadd (vneg (vadd c Qx)) (matTVec c.length A state.y)) state.z_l) state.z_u
  , primal_feasibility := vsub (matVec A state.x) b
  , cs_lower := vneg (cwise_multiply_finite state.z_l (vsub state.x l))
  , cs_upper := vneg (cwise_multiply_finite state.z_u (vsub state.x u)) }

/-- The convergence terminator, ConvergenceTerminator terminate,
src/terminators.rs lines 129 to 138: fires with Optimal when both recorded
infeasibility norms are at most the configured tolerance. -/
def ConvergenceTerminator.terminate (tolerance : E) (state : SolverState) : Option Status :=
  if fle state.primal_infeasibility tolerance && fle state.dual_infeasibility tolerance then
    some Status.Optimal
  else
    none

/-- Default of the mu_min option of AdaptiveMuUpdate (1e-7). -/
def mu_min_default : E := E.fin (1 / 10000000)

/-- Default of the mu_max option of AdaptiveMuUpdate (1e7). -/
def mu_max_default : E := E.fin 10000000

/-- The adaptive barrier update, AdaptiveMuUpdate get,
src/lp/mpc/mu_update.rs lines 65 to 80. -/
def AdaptiveMuUpdate.get (lp : LinearProgram) (mu_min mu_max : E) (state : SolverState) : E :=
  let xl := vsub state.x lp.l
  let xu := vsub state.x lp.u
  let lo := vsum (cwise_multiply_finite state.z_l xl)
  let up := vsum (cwise_multiply_finite state.z_u xu)
  let mu := fdiv (fadd lo up) (E.fin (state.x.length : Rat))
  fclamp mu mu_min mu_max

/-- The per-index primal ratio list of LPLineSearch get_primal_step_length,
src/lp/mpc/line_search.rs lines 57 to 77. -/
def primal_ratio_list : List E → List E → List E → List E → List E
  | x :: xs, l :: ls, u :: us, d :: ds =>
      let dx_neg := if flt d (E.fin 0) then d else fneg x
      let dx_pos := if flt (E.fin 0) d then d else fneg x
      let alpha_lb := if fisFinite l then fdiv (fneg (fsub x l)) dx_neg else E.pinf
      let alpha_ub := if fisFinite u then fdiv (fneg (fsub x u)) dx_pos else E.pinf
      fmin alpha_lb alpha_ub :: primal_ratio_list xs ls us ds
  | _, _, _, _ => []

/-- LPLineSearch get_primal_step_length, src/lp/mpc/line_search.rs
lines 56 to 85. -/
def LPLineSearch.get_primal_step_length (lp : LinearProgram) (safety_factor : E)
    (state : SolverState) (step : Step) : E :=
  fmin (E.fin 1) (fmul safety_factor (col_min (primal_ratio_list state.x lp.l lp.u step.dx)))

/-- LPLineSearch get_dual_step_length, src/lp/mpc/line_search.rs
lines 87 to 131. -/
def LPLineSearch.get_dual_step_length (safety_factor : E) (state : SolverState) (step : Step) : E :=
  let ds_ub_pos :=
    List.zipWith (fun s_ub ds_ub => if flt (E.fin 0) ds_ub then fneg ds_ub else s_ub)
      state.z_u step.dz_u
  let alpha_dual_ub :=
    fmin (E.fin 1) (fmul safety_factor (col_min (cwise_quotient state.z_u ds_ub_pos)))
  let ds_lb_neg :=
    List.zipWith (fun s_lb ds_lb => if flt ds_lb (E.fin 0) then fneg ds_lb else s_lb)
      state.z_l step.dz_l
  let alpha_dual_lb :=
    fmin (E.fin 1) (fmul safety_factor (col_min (cwise_quotient state.z_l ds_lb_neg)))
  fmin alpha_dual_ub alpha_dual_lb

/-- Mutable data of the StandardSystem augmented-system assembler from
src/lp/mpc/augmented_system.rs.  The external faer factorization and
triangular-solve kernel is abstracted as an oracle lin_solve from the
assembled right-hand side to an optional solution column; diag records the
diagonal entries written into the stored matrix, and factorize_count counts
the numeric factorizations performed through the kernel. -/
structure StandardSystemData where
  lin_solve : List E → Option (List E)
  diag : List E
  factorize_count : Nat

/-- StandardSystem resolve, src/lp/mpc/augmented_system.rs lines 151 to 191:
assemble the right-hand side from the residual, apply the existing
factorization, split the solution into dx and dy, and recover dz_l and dz_u
in closed form. -/
def StandardSystem.resolve (lp : LinearProgram) (sys : StandardSystemData)
    (state : SolverState) (residual : Residual) : StandardSystemData × Option Step :=
  let n := lp.n_vars
  let xl_inv := cwise_inverse (vsub state.x lp.l)
  let xu_inv := cwise_inverse (vsub state.x lp.u)
  let rhs_dual :=
    vsub (vadd (vadd residual.dual_feasibility state.z_l) state.z_u)
      (vscale (fmul state.sigma state.mu) (vadd xl_inv xu_inv))
  let rhs := List.append rhs_dual residual.primal_feasibility
  match sys.lin_solve rhs with
  | none => (sys, none)
  | some solution =>
      let dx := solution.take n
      let dy := solution.drop n
      let dz_l :=
        vsub (vsub (vscale (fmul state.sigma state.mu) xl_inv) state.z_l)
          (cwise_multiply (cwise_multiply xl_inv state.z_l) dx)
      let dz_u :=
        vsub (vsub (vscale (fmul state.sigma state.mu) xu_inv) state.z_u)
          (cwise_multiply (cwise_multiply xu_inv state.z_u) dx)
      (sys, some { dx := dx, dy := dy, dz_l := dz_l, dz_u := dz_u })

/-- StandardSystem solve, src/lp/mpc/augmented_system.rs lines 129 to 149:
recompute the complementarity diagonal, overwrite the stored diagonal with
its negation, run the numeric factorization, then delegate to resolve. -/
def StandardSystem.solve (lp : LinearProgram) (sys : StandardSystemData)
    (state : SolverState) (residual : Residual) : StandardSystemData × Option Step :=
  let xl_inv := cwise_inverse (vsub state.x lp.l)
  let xu_inv := cwise_inverse (vsub state.x lp.u)
  let sys_diag := vadd (cwise_multiply xl_inv state.z_l) (cwise_multiply xu_inv state.z_u)
  let sys1 := { sys with diag := vneg sys_diag, factorize_count := sys.factorize_count + 1 }
  StandardSystem.resolve lp sys1 state residual

/-- The state at entry to the predictor step: sigma zero, mu from the
barrier updater, safety factor one (src/lp/mpc/mod.rs lines 127 to 128). -/
def predictor_state (mu_get : SolverState → E) (state : SolverState) : SolverState :=
  SolverState.set_safety_factor (SolverState.set_sigma_mu state (E.fin 0) (mu_get state)) (E.fin 1)

/-- Advancing an iterate by a primal step length on x and a dual step
length on y, z_l and z_u along a direction (src/lp/mpc/mod.rs lines
138 to 142 and 155 to 158). -/
def advance_state (s : SolverState) (alpha_p alpha_d : E) (step : Step) : SolverState :=
  { s with
    x := vadd s.x (vscale alpha_p step.dx)
  , y := vadd s.y (vscale alpha_d step.dy)
  , z_l := vadd s.z_l (vscale alpha_d step.dz_l)
  , z_u := vadd s.z_u (vscale alpha_d step.dz_u) }

/-- One outer iteration of the Mehrotra predictor-corrector driver,
MehrotraPredictorCorrector iterate, src/lp/mpc/mod.rs lines 124 to 171.
Mirroring the generics of the Rust struct, the function is parameterized by
the barrier updater mu_get, the augmented-system solve sys_solve (threading
its mutable data of type Sys), the two line searches, and the external faer
column 2-norm norm_l2.  A none result models the error return. -/
def MehrotraPredictorCorrector.iterate {Sys : Type} (lp : LinearProgram)
    (mu_get : SolverState → E)
    (sys_solve : Sys → SolverState → Residual → Sys × Option Step)
    (aff_ls cc_ls : SolverState → Step → E × E)
    (norm_l2 : List E → E)
    (sys : Sys) (state : SolverState) : Sys × Option SolverState :=
  let s1 := predictor_state mu_get state
  let residual := MehrotraPredictorCorrector.compute_residual lp s1
  match sys_solve sys s1 residual with
  | (sys1, none) => (sys1, none)
  | (sys1, some aff_step) =>
      let alphas := aff_ls s1 aff_step
      let state_aff := advance_state s1 alphas.1 alphas.2 aff_step
      let s2 :=
        SolverState.set_safety_factor
          (SolverState.set_sigma_mu s1 (fpow3 (fdiv (mu_get state_aff) s1.mu)) s1.mu)
          (E.fin (99 / 100))
      let residual2 :=
        { residual with
          cs_lower := vsub residual.cs_lower (cwise_multiply_finite aff_step.dz_l aff_step.dx)
        , cs_upper := vsub residual.cs_upper (cwise_multiply_finite aff_step.dz_u aff_step.dx) }
      match sys_solve sys1 s2 residual2 with
      | (sys2, none) => (sys2, none)
      | (sys2, some corr_step) =>
          let alphas2 := cc_ls s2 corr_step
          let s3a := advance_state s2 alphas2.1 alphas2.2 corr_step
          let s3 := { s3a with alpha_primal := alphas2.1, alpha_dual := alphas2.2 }
          let residual3 := MehrotraPredictorCorrector.compute_residual lp s3
          let s4 :=
            { s3 with
              primal_infeasibility := norm_l2 residual3.primal_feasibility
            , dual_infeasibility := norm_l2 residual3.dual_feasibility
            , complimentary_slack_lower := norm_l2 residual3.cs_lower
            , complimentary_slack_upper := norm_l2 residual3.cs_upper }
          (sys2, some { s4 with status := Status.InProgress })

/-- Iteration cap, MehrotraPredictorCorrector get_max_iter: zero means the
default of 100. -/
def MehrotraPredictorCorrector.get_max_iter (max_iterations : Nat) : Nat :=
  if max_iterations < 1 then 100 else max_iterations

/-- The solve loop body of MehrotraPredictorCorrector solve,
src/lp/mpc/mod.rs lines 207 to 233, with the remaining iteration budget as
fuel and k the current iteration index; the callback only observes the
state and is omitted.  The returned pair carries the final system data and,
on success, the returned status together with the final state. -/
def MehrotraPredictorCorrector.solve_loop {Sys : Type} (lp : LinearProgram)
    (mu_get : SolverState → E)
    (sys_solve : Sys → SolverState → Residual → Sys × Option Step)
    (aff_ls cc_ls : SolverState → Step → E × E)
    (norm_l2 : List E → E)
    (terminator : SolverState → Option Status) :
    Nat → Nat → Sys → SolverState → Sys × Option (Status × SolverState)
  | 0, _, sys, state => (sys, some (Status.IterationLimit, state))
  | Nat.succ fuel, k, sys, state =>
      let s0 := { state with nit := k }
      match MehrotraPredictorCorrector.iterate lp mu_get sys_solve aff_ls cc_ls norm_l2 sys s0 with
      | (sys1, none) => (sys1, none)
      | (sys1, some s1) =>
          if s1.status = Status.InProgress then
            match terminator s1 with
            | some st => (sys1, some (st, s1))
            | none =>
                MehrotraPredictorCorrector.solve_loop lp mu_get sys_solve aff_ls cc_ls norm_l2
                  terminator fuel (k + 1) sys1 s1
          else (sys1, some (s1.status, s1))

/-- MehrotraPredictorCorrector solve: reset the iteration counter, set the
status to InProgress, and run the loop up to the iteration cap. -/
def MehrotraPredictorCorrector.solve {Sys : Type} (lp : LinearProgram)
    (mu_get : SolverState → E)
    (sys_solve : Sys → SolverState → Residual → Sys × Option Step)
    (aff_ls cc_ls : SolverState → Step → E × E)
    (norm_l2 : List E → E)
    (terminator : SolverState → Option Status)
    (max_iterations : Nat) (sys : Sys) (state : SolverState) :
    Sys × Option (Status × SolverState) :=
  let s0 := SolverState.set_status { state with nit := 0 } Status.InProgress
  MehrotraPredictorCorrector.solve_loop lp mu_get sys_solve aff_ls cc_ls norm_l2 terminator
    (MehrotraPredictorCorrector.get_max_iter max_iterations) 0 sys s0

/-- Error taxonomy of the sparse solvers, LinearSolverError from
src/linalg/solver.rs. -/
inductive LinearSolverError where
  | SymbolicFactorization
  | CholeskyFactorization
  | LuFactorization
  | NumericFactorization
  | Uninitialized
  | MemoryReservation
  | MemoryAllocation
  | SolveFailed
deriving DecidableEq, Repr

/-- Presence flags of the fields of SimplicialSparseCholesky from
src/linalg/cholesky.rs: each Bool records whether the corresponding
Option field is set (or the values vector filled).  The numeric content is
computed by the external faer kernels and is not repeated here. -/
structure SimplicialSparseCholesky where
  symbolic : Bool
  perm : Bool
  l_values : Bool
  ldlt : Bool
deriving DecidableEq, Repr

/-- Outcomes of the fallible external calls inside analyze: workspace
reservation, the AMD ordering scratch allocation and ordering itself, the
permuted-triangle extraction, and the symbolic factorization with its
scratch allocation. -/
structure AnalyzeOutcome where
  reserve_ok : Bool
  amd_alloc_ok : Bool
  amd_ok : Bool
  triangle_ok : Bool
  symbolic_alloc_ok : Bool
  symbolic_ok : Bool
deriving DecidableEq, Repr

/-- Outcomes of the fallible external calls inside factorize: values
reservation, permuted-triangle extraction, scratch allocation, and the
numeric LDLT factorization. -/
structure FactorizeOutcome where
  reserve_ok : Bool
  triangle_ok : Bool
  alloc_ok : Bool
  numeric_ok : Bool
deriving DecidableEq, Repr

/-- Outcome of the fallible scratch allocation inside solve_in_place. -/
structure SolveOutcome where
  alloc_ok : Bool
deriving DecidableEq, Repr

/-- SimplicialSparseCholesky new: every field unset. -/
def SimplicialSparseCholesky.new : SimplicialSparseCholesky :=
  { symbolic := false, perm := false, l_values := false, ldlt := false }

/-- SimplicialSparseCholesky analyze, src/linalg/cholesky.rs lines 87 to
164: compute the fill-reducing permutation (setting perm on success), then
the symbolic factorization (setting symbolic on success); each fallible
external step surfaces its error and leaves the later fields unset. -/
def SimplicialSparseCholesky.analyze (ext : AnalyzeOutcome) (s : SimplicialSparseCholesky) :
    SimplicialSparseCholesky × Option LinearSolverError :=
  if ext.reserve_ok = false then (s, some LinearSolverError.MemoryReservation)
  else if ext.amd_alloc_ok = false then (s, some LinearSolverError.MemoryAllocation)
  else if ext.amd_ok = false then (s, some LinearSolverError.SymbolicFactorization)
  else
    let s1 := { s with perm := true }
    if ext.triangle_ok = false then (s1, some LinearSolverError.MemoryReservation)
    else if ext.symbolic_alloc_ok = false then (s1, some LinearSolverError.MemoryAllocation)
    else if ext.symbolic_ok = false then (s1, some LinearSolverError.SymbolicFactorization)
    else ({ s1 with symbolic := true }, none)

/-- SimplicialSparseCholesky factorize, src/linalg/cholesky.rs lines 168 to
218: return Uninitialized when the symbolic analysis is absent; otherwise
fill the values vector, run the numeric factorization, and set the ldlt
reference only on success. -/
def SimplicialSparseCholesky.factorize (ext : FactorizeOutcome) (s : SimplicialSparseCholesky) :
    SimplicialSparseCholesky × Option LinearSolverError :=
  if s.symbolic = false then (s, some LinearSolverError.Uninitialized)
  else if ext.reserve_ok = false then (s, some LinearSolverError.MemoryReservation)
  else
    let s1 := { s with l_values := true }
    if ext.triangle_ok = false then (s1, some LinearSolverError.MemoryReservation)
    else if ext.alloc_ok = false then (s1, some LinearSolverError.MemoryAllocation)
    else if ext.numeric_ok = false then (s1, some LinearSolverError.NumericFactorization)
    else ({ s1 with ldlt := true }, none)

/-- SimplicialSparseCholesky solve_in_place, src/linalg/cholesky.rs lines
222 to 245: return Uninitialized when the symbolic analysis, the
permutation or the ldlt factorization is absent; otherwise permute, apply
the triangular solves and permute back (external). -/
def SimplicialSparseCholesky.solve_in_place (ext : SolveOutcome) (s : SimplicialSparseCholesky) :
    SimplicialSparseCholesky × Option LinearSolverError :=
  if s.symbolic = false then (s, some LinearSolverError.Uninitialized)
  else if s.perm = false then (s, some LinearSolverError.Uninitialized)
  else if s.ldlt = false then (s, some LinearSolverError.Uninitialized)
  else if ext.alloc_ok = false then (s, some LinearSolverError.MemoryAllocation)
  else (s, none)

/-- Presence flags of the fields of SupernodalSparseCholesky from
src/linalg/cholesky.rs. -/
structure SupernodalSparseCholesky where
  symbolic : Bool
  perm : Bool
  l_values : Bool
  ldlt : Bool
deriving DecidableEq, Repr

/-- SupernodalSparseCholesky new: every field unset. -/
def SupernodalSparseCholesky.new : SupernodalSparseCholesky :=
  { symbolic := false, perm := false, l_values := false, ldlt := false }

/-- SupernodalSparseCholesky analyze, src/linalg/cholesky.rs lines 307 to
385, same staging as the simplicial variant with the supernodal symbolic
kernel. -/
def SupernodalSparseCholesky.analyze (ext : AnalyzeOutcome) (s : SupernodalSparseCholesky) :
    SupernodalSparseCholesky × Option LinearSolverError :=
  if ext.reserve_ok = false then (s, some LinearSolverError.MemoryReservation)
  else if ext.amd_alloc_ok = false then (s, some LinearSolverError.MemoryAllocation)
  else if ext.amd_ok = false then (s, some LinearSolverError.SymbolicFactorization)
  else
    let s1 := { s with perm := true }
    if ext.triangle_ok = false then (s1, some LinearSolverError.MemoryReservation)
    else if ext.symbolic_alloc_ok = false then (s1, some LinearSolverError.MemoryAllocation)
    else if ext.symbolic_ok = false then (s1, some LinearSolverError.SymbolicFactorization)
    else ({ s1 with symbolic := true }, none)

/-- SupernodalSparseCholesky factorize, src/linalg/cholesky.rs lines 389 to
445. -/
def SupernodalSparseCholesky.factorize (ext : FactorizeOutcome) (s : SupernodalSparseCholesky) :
    SupernodalSparseCholesky × Option LinearSolverError :=
  if s.symbolic = false then (s, some LinearSolverError.Uninitialized)
  else if ext.reserve_ok = false then (s, some LinearSolverError.MemoryReservation)
  else
    let s1 := { s with l_values := true }
    if ext.triangle_ok = false then (s1, some LinearSolverError.MemoryReservation)
    else if ext.alloc_ok = false then (s1, some LinearSolverError.MemoryAllocation)
    else if ext.numeric_ok = false then (s1, some LinearSolverError.NumericFactorization)
    else ({ s1 with ldlt := true }, none)

/-- SupernodalSparseCholesky solve_in_place, src/linalg/cholesky.rs lines
456 to 483. -/
def SupernodalSparseCholesky.solve_in_place (ext : SolveOutcome) (s : SupernodalSparseCholesky) :
    SupernodalSparseCholesky × Option LinearSolverError :=
  if s.symbolic = false then (s, some LinearSolverError.Uninitialized)
  else if s.perm = false then (s, some LinearSolverError.Uninitialized)
  else if s.ldlt = false then (s, some LinearSolverError.Uninitialized)
  else if ext.alloc_ok = false then (s, some LinearSolverError.MemoryAllocation)
  else (s, none)

/-- Modelled from the spec: the Solver trait of src/linalg/solver.rs
declares a solve method that returns the solution for a right-hand side;
its body is absent from the cholesky source in src/, and per the spec it
applies the permutations and triangular solves to a copy of the input,
that is, it delegates to solve_in_place on a copy.  Its error behavior is
therefore that of solve_in_place. -/
def SimplicialSparseCholesky.solve (ext : SolveOutcome) (s : SimplicialSparseCholesky) :
    SimplicialSparseCholesky × Option LinearSolverError :=
  SimplicialSparseCholesky.solve_in_place ext s

/-- Modelled from the spec: the supernodal solve wrapper, delegating to
solve_in_place on a copy of the right-hand side, as for the simplicial
variant. -/
def SupernodalSparseCholesky.solve (ext : SolveOutcome) (s : SupernodalSparseCholesky) :
    SupernodalSparseCholesky × Option LinearSolverError :=
  SupernodalSparseCholesky.solve_in_place ext s

/-- The solver types offered by the LP builder, LPSolverType from
src/lp/mod.rs lines 188 to 193. -/
inductive LPSolverType where
  | MpcSimplicialCholesky
  | MpcSupernodalCholesky
  | MpcSimplicialLu
deriving DecidableEq, Repr

/-- The three linear-algebra kernels implemented under src/linalg. -/
inductive LinearSolverKernel where
  | simplicialCholesky
  | supernodalCholesky
  | simplicialLu
deriving DecidableEq, Repr

/-- The factorization kernel chosen by LPSolverBuilder build for each
solver type, read off the type arguments of the three match arms at
src/lp/mod.rs lines 233 to 258: the first arm instantiates the driver with
SimplicialSparseCholesky, the second with SupernodalSparseCholesky, and the
third arm, for MpcSimplicialLu, again with SimplicialSparseCholesky. -/
def LPSolverBuilder.build_kernel : LPSolverType → LinearSolverKernel
  | LPSolverType.MpcSimplicialCholesky => LinearSolverKernel.simplicialCholesky
  | LPSolverType.MpcSupernodalCholesky => LinearSolverKernel.supernodalCholesky
  | LPSolverType.MpcSimplicialLu => LinearSolverKernel.simplicialCholesky

/-- The rational carried by a finite scalar, zero on the special values. -/
def toRat : E → Rat
  | E.fin q => q
  | _ => 0

/-- The masked inner product of the spec, stated independently of the code:
the sum over the indices whose bound is finite of (x minus bound) times the
multiplier, in exact rational arithmetic. -/
def spec_masked_dot_q : List E → List E → List E → Rat
  | x :: xs, bd :: bs, z :: zs =>
      (if fisFinite bd = true then (toRat x - toRat bd) * toRat z else 0)
        + spec_masked_dot_q xs bs zs
  | _, _, _ => 0

/-- Pointwise masking check: at every index where the bound equals the given
infinite value, the paired entry is exactly zero. -/
def masked_at (iv : E) : List E → List E → Bool
  | bd :: bs, v :: vs =>
      (if bd = iv then decide (v = E.fin 0) else true) && masked_at iv bs vs
  | _, _ => true

/-- Strict interiority of an iterate with respect to the finite bounds,
from the spec invariants. -/
def strictly_interior : List E → List E → List E → Bool
  | l :: ls, x :: xs, u :: us =>
      (!fisFinite l || flt l x) && (!fisFinite u || flt x u) && strictly_interior ls xs us
  | _, _, _ => true

/-- Correct multiplier signs, from the spec invariants: z_l nonnegative and
z_u nonpositive. -/
def multiplier_signs (z_l z_u : List E) : Bool :=
  z_l.all (fun z => fle (E.fin 0) z) && z_u.all (fun z => fle z (E.fin 0))

/-- A solver state with empty columns and neutral scalars, used to build
concrete states. -/
def stateBase : SolverState :=
  { status := Status.InProgress, nit := 0, x := [], y := [], z_l := [], z_u := []
  , alpha_primal := E.fin 1, alpha_dual := E.fin 1, sigma := E.fin 0, mu := E.fin 0
  , safety_factor := E.fin 1, primal_infeasibility := E.fin 0, dual_infeasibility := E.fin 0
  , complimentary_slack_lower := E.fin 0, complimentary_slack_upper := E.fin 0 }

lemma fadd_comm (a b : E) : fadd a b = fadd b a := by
  cases a <;> cases b <;> simp [fadd, Rat.add_comm]

lemma fadd_zero_right (a : E) : fadd a (E.fin 0) = a := by
  cases a <;> simp [fadd]

lemma fneg_fneg (a : E) : fneg (fneg a) = a := by
  cases a <;> simp [fneg]

lemma fneg_fadd (a b : E) : fneg (fadd a b) = fadd (fneg a) (fneg b) := by
  cases a <;> cases b <;> simp [fadd, fneg, neg_add, add_comm]

lemma vadd_comm (a b : List E) : vadd a b = vadd b a := by
  induction a generalizing b with
  | nil => cases b <;> simp [vadd]
  | cons x xs ih =>
      cases b with
      | nil => simp [vadd]
      | cons y ys => simp [vadd, fadd_comm, List.zipWith] at ih ⊢; exact ih ys

lemma vneg_vadd (a b : List E) : vneg (vadd a b) = vadd (vneg a) (vneg b) := by
  induction a generalizing b with
  | nil => simp [vneg, vadd]
  | cons x xs ih =>
      cases b with
      | nil => simp [vneg, vadd]
      | cons y ys => simp [vneg, vadd, fneg_fadd] at ih ⊢; exact ih ys

lemma vneg_vneg (a : List E) : vneg (vneg a) = a := by
  induction a with
  | nil => simp [vneg]
  | cons x xs ih => simp [vneg, fneg_fneg] at ih ⊢; exact ih

lemma vsub_eq_vadd_vneg (a b : List E) : vsub a b = vadd a (vneg b) := by
  induction a generalizing b with
  | nil => simp [vsub, vadd]
  | cons x xs ih =>
      cases b with
      | nil => simp [vsub, vadd, vneg]
      | cons y ys => simp [vsub, vadd, vneg, fsub] at ih ⊢; exact ih ys

lemma vadd_replicate_zero (a : List E) : vadd a (List.replicate a.length (E.fin 0)) = a := by
  induction a with
  | nil => simp [vadd]
  | cons x xs ih => simp [vadd, List.replicate, fadd_zero_right] at ih ⊢; exact ih

/-- A one-variable one-constraint LP used to exhibit the sign mismatch of
the driver residual: c = 1, A = (1), b = 0, bounds 0 and plus-infinity. -/
def lpC1 : LinearProgram :=
  { c := [E.fin 1], A := [[E.fin 1]], b := [E.fin 0], l := [E.fin 0], u := [E.pinf] }

/-- A concrete iterate for the C1 counterexample. -/
def stateC1 : SolverState :=
  { stateBase with x := [E.fin 1], y := [E.fin 0], z_l := [E.fin (1 / 2)], z_u := [E.fin 0] }

/-- C1 counterexample: at the concrete LP and iterate above, the dual
residual computed by the MPC driver (c minus transpose of A times y minus
z_l minus z_u, evaluating to one half) differs from the value required by
the sign convention of the spec (minus c plus transpose of A times y plus
z_l plus z_u, evaluating to minus one half), so the driver does not follow
the convention the claim states. -/
theorem c1_driver_residual_not_spec_convention :
    ¬ ((MehrotraPredictorCorrector.compute_residual lpC1 stateC1).dual_feasibility
      = (spec_residual lpC1.c lpC1.A lpC1.b lpC1.l lpC1.u
          (List.replicate lpC1.n_vars (E.fin 0)) stateC1).dual_feasibility) := by
  with_unfolding_all decide

/-- C1 amended: the KKT residual used by the MPC driver is the negation, in
its dual-feasibility and primal-feasibility components, of the residual of
the OptimizationProgram implementations (the driver computes c minus
transpose of A times y minus z_l minus z_u and b minus A x), while the
complementarity components agree; the LP and QP OptimizationProgram
residuals do follow the sign convention of the spec exactly. -/
theorem c1_residual_convention_amended :
    ∀ (lp : LinearProgram) (qp : QuadraticProgram) (state : SolverState),
      (MehrotraPredictorCorrector.compute_residual lp state).dual_feasibility
        = vneg ((LinearProgram.compute_residual lp state).dual_feasibility)
      ∧ (MehrotraPredictorCorrector.compute_residual lp state).primal_feasibility
        = vneg ((LinearProgram.compute_residual lp state).primal_feasibility)
      ∧ (MehrotraPredictorCorrector.compute_residual lp state).cs_lower
        = (LinearProgram.compute_residual lp state).cs_lower
      ∧ (MehrotraPredictorCorrector.compute_residual lp state).cs_upper
        = (LinearProgram.compute_residual lp state).cs_upper
      ∧ LinearProgram.compute_residual lp state
        = spec_residual lp.c lp.A lp.b lp.l lp.u (List.replicate lp.n_vars (E.fin 0)) state
      ∧ QuadraticProgram.compute_residual qp state
        = spec_residual qp.c qp.A qp.b qp.l qp.u (matVec qp.Q state.x) state := by
  intro lp qp state
  refine ⟨?_, ?_, rfl, rfl, ?_, ?_⟩
  · simp only [MehrotraPredictorCorrector.compute_residual, LinearProgram.compute_residual,
      vneg_vadd, vneg_vneg, vsub_eq_vadd_vneg]
  · simp only [MehrotraPredictorCorrector.compute_residual, LinearProgram.compute_residual,
      vsub_eq_vadd_vneg, vneg_vadd, vneg_vneg]
    exact vadd_comm _ _
  · simp only [LinearProgram.compute_residual, spec_residual, LinearProgram.n_vars]
    have h : vadd lp.c (List.replicate lp.c.length (E.fin 0)) = lp.c := vadd_replicate_zero lp.c
    rw [h]
  · simp only [QuadraticProgram.compute_residual, spec_residual]
    have h : vneg (vadd qp.c (matVec qp.Q state.x))
        = vadd (vneg (matVec qp.Q state.x)) (vneg qp.c) := by
      rw [vneg_vadd]; exact vadd_comm _ _
    rw [h, vsub_eq_vadd_vneg]

/-- A concrete state for the C2 counterexample: the recorded primal
residual 2-norm is three halves (the 2-norm of the length-two residual
column (three halves, zero)), the dual one is zero, over a problem with
two variables and two constraints. -/
def stateC2 : SolverState :=
  { stateBase with
    x := [E.fin 1, E.fin 1], y := [E.fin 1, E.fin 1]
  , z_l := [E.fin 1, E.fin 1], z_u := [E.fin 0, E.fin 0]
  , primal_infeasibility := E.fin (3 / 2), dual_infeasibility := E.fin 0 }

/-- The primal residual column whose 2-norm is the recorded scalar of
stateC2. -/
def rpC2 : List E := [E.fin (3 / 2), E.fin 0]

/-- C2 counterexample: with tolerance 1, m = n = 2, and a recorded primal
residual norm of three halves (squaring to the dot product of the residual
column with itself), the claimed firing condition (norm at most tolerance
times m and tolerance times n) holds, yet the terminator does not fire:
the code compares the norms against the bare tolerance. -/
theorem c2_convergence_tolerance_not_scaled :
    (fmul stateC2.primal_infeasibility stateC2.primal_infeasibility = dotE rpC2 rpC2)
    ∧ ¬ (ConvergenceTerminator.terminate (E.fin 1) stateC2 = some Status.Optimal
        ↔ (fle stateC2.primal_infeasibility (fmul (E.fin 1) (E.fin 2)) = true
          ∧ fle stateC2.dual_infeasibility (fmul (E.fin 1) (E.fin 2)) = true)) := by
  with_unfolding_all decide

/-- C2 amended: the convergence terminator fires, returning Optimal,
exactly when the recorded primal residual 2-norm is at most the configured
tolerance and the recorded dual residual 2-norm is at most the tolerance,
with no scaling by the number of constraints or variables; otherwise it
returns no status. -/
theorem c2_convergence_terminator_amended :
    ∀ (tolerance : E) (state : SolverState),
      (ConvergenceTerminator.terminate tolerance state = some Status.Optimal
        ↔ (fle state.primal_infeasibility tolerance = true
          ∧ fle state.dual_infeasibility tolerance = true))
      ∧ (ConvergenceTerminator.terminate tolerance state = none
        ↔ ¬ (fle state.primal_infeasibility tolerance = true
          ∧ fle state.dual_infeasibility tolerance = true)) := by
  intro tolerance state
  unfold ConvergenceTerminator.terminate
  cases hp : fle state.primal_infeasibility tolerance <;>
    cases hd : fle state.dual_infeasibility tolerance <;> simp

lemma std_solve_count (lp : LinearProgram) (sys : StandardSystemData)
    (state : SolverState) (residual : Residual) :
    (StandardSystem.solve lp sys state residual).1.factorize_count = sys.factorize_count + 1 := by
  unfold StandardSystem.solve StandardSystem.resolve
  dsimp only
  split <;> rfl

lemma std_resolve_keeps_sys (lp : LinearProgram) (sys : StandardSystemData)
    (state : SolverState) (residual : Residual) :
    (StandardSystem.resolve lp sys state residual).1 = sys := by
  unfold StandardSystem.resolve
  dsimp only
  split <;> rfl

/-- C3 amended: when the driver is instantiated with the StandardSystem
assembler, every completed outer iteration performs exactly two numeric
factorizations, because both the predictor and the corrector invoke solve
(which updates the diagonal and factorizes); the factorization-reusing
resolve exists but is not called by the driver. -/
theorem c3_factorization_count_amended :
    ∀ (lp : LinearProgram) (mu_get : SolverState → E)
      (aff_ls cc_ls : SolverState → Step → E × E) (norm_l2 : List E → E)
      (sys : StandardSystemData) (state : SolverState)
      (sys2 : StandardSystemData) (s2 : SolverState),
      MehrotraPredictorCorrector.iterate lp mu_get (StandardSystem.solve lp) aff_ls cc_ls
        norm_l2 sys state = (sys2, some s2) →
      sys2.factorize_count = sys.factorize_count + 2 := by
  intro lp mu_get aff_ls cc_ls norm_l2 sys state sys2 s2 h
  unfold MehrotraPredictorCorrector.iterate at h
  dsimp only at h
  split at h
  next sysa opt heq1 =>
    simp only [Prod.mk.injEq] at h
    exact absurd h.2 (by simp)
  next sysa aff_step heq1 =>
    split at h
    next sysb opt2 heq2 =>
      simp only [Prod.mk.injEq] at h
      exact absurd h.2 (by simp)
    next sysb corr_step heq2 =>
      simp only [Prod.mk.injEq] at h
      have h1 : sysa.factorize_count = sys.factorize_count + 1 := by
        have hc := congrArg (fun p => (Prod.fst p).factorize_count) heq1
        simp only at hc
        rw [std_solve_count] at hc
        exact hc.symm
      have h2 : sysb.factorize_count = sysa.factorize_count + 1 := by
        have hc := congrArg (fun p => (Prod.fst p).factorize_count) heq2
        simp only at hc
        rw [std_solve_count] at hc
        exact hc.symm
      have h3 : sysb = sys2 := h.1
      rw [h3] at h2
      omega

/-- A tiny LP for the concrete C3 runs. -/
def lpC3 : LinearProgram :=
  { c := [E.fin 0], A := [[E.fin 1]], b := [E.fin 0], l := [E.fin 0], u := [E.pinf] }

/-- StandardSystem data for the concrete C3 runs whose external kernel
always returns the zero column of length two. -/
def sysC3 : StandardSystemData :=
  { lin_solve := fun _ => some [E.fin 0, E.fin 0], diag := [], factorize_count := 0 }

/-- A concrete strictly interior iterate for the C3 runs. -/
def stateC3 : SolverState :=
  { stateBase with
    x := [E.fin 1], y := [E.fin 1], z_l := [E.fin 1], z_u := [E.fin 0]
  , sigma := E.fin 0, mu := E.fin 1 }

/-- Constant barrier value one for the C3 runs. -/
def muC3 : SolverState → E := fun _ => E.fin 1

/-- Constant unit step lengths for the C3 runs. -/
def lsC3 : SolverState → Step → E × E := fun _ _ => (E.fin 1, E.fin 1)

/-- Zero norm oracle for the C3 runs. -/
def normC3 : List E → E := fun _ => E.fin 0

/-- The concrete completed iteration for C3. -/
def iterC3 : StandardSystemData × Option SolverState :=
  MehrotraPredictorCorrector.iterate lpC3 muC3 (StandardSystem.solve lpC3) lsC3 lsC3 normC3
    sysC3 stateC3

/-- The state produced by the concrete C3 iteration. -/
def iterC3_state : SolverState :=
  match iterC3.2 with
  | some s => s
  | none => stateBase

/-- C3 counterexample: the concrete completed iteration performs two
numeric factorizations, not the single one the claim asserts. -/
theorem c3_two_factorizations_counterexample :
    ¬ (iterC3.1.factorize_count = sysC3.factorize_count + 1) := by
  with_unfolding_all decide

/-- C3 witness: the amended theorem applied to the concrete completed
iteration, whose factorization counter ends at two. -/
theorem c3_factorization_count_witness :
    iterC3.1.factorize_count = sysC3.factorize_count + 2 := by
  apply c3_factorization_count_amended lpC3 muC3 lsC3 lsC3 normC3 sysC3 stateC3
    iterC3.1 iterC3_state
  with_unfolding_all rfl

/-- A one-variable LP with both bounds finite for the C4 evaluation:
lower bound 0, upper bound 5. -/
def lpC4 : LinearProgram :=
  { c := [E.fin 1], A := [[E.fin 1]], b := [E.fin 2], l := [E.fin 0], u := [E.fin 5] }

/-- A strictly interior iterate with correctly signed multipliers:
x = 2 with bounds (0, 5), z_l = 1, z_u = -1. -/
def stateC4 : SolverState :=
  { stateBase with
    x := [E.fin 2], y := [E.fin 0], z_l := [E.fin 1], z_u := [E.fin (-1)] }

/-- The search direction dx = -1 for the C4 evaluation. -/
def stepC4 : Step :=
  { dx := [E.fin (-1)], dy := [E.fin 0], dz_l := [E.fin 0], dz_u := [E.fin 0] }

/-- C4: at a strictly interior state with correctly signed multipliers and
the direction dx = -1, the primal step length returned by the line search
with the valid safety factor one half evaluates to -3/4, a negative value
outside the claimed interval (0, 1]: with dx negative the
finite-upper-bound branch divides by minus x, producing the negative
candidate -3/2 which survives the final min against 1 (the default safety
factor 0.999 gives -2997/2000 the same way).  This contradicts the
contract stated in the doc comment of the line-search trait. -/
theorem c4_negative_primal_step_eval :
    strictly_interior lpC4.l stateC4.x lpC4.u = true
    ∧ multiplier_signs stateC4.z_l stateC4.z_u = true
    ∧ (flt (E.fin 0) (E.fin (1 / 2)) = true ∧ flt (E.fin (1 / 2)) (E.fin 1) = true)
    ∧ LPLineSearch.get_primal_step_length lpC4 (E.fin (1 / 2)) stateC4 stepC4
        = E.fin (-3 / 4)
    ∧ flt (LPLineSearch.get_primal_step_length lpC4 (E.fin (1 / 2)) stateC4 stepC4)
        (E.fin 0) = true := by
  with_unfolding_all decide

/-- C5: in every completed MPC iteration driven by the adaptive barrier
update, the centering parameter recorded in the returned state equals
(mu_aff over mu) cubed, where mu is the adaptive barrier value at the
state the iteration started from and mu_aff is the adaptive barrier value
at the probe iterate obtained by advancing x by the affine primal step
length along the affine dx and advancing y, z_l, z_u by the affine dual
step length along the affine dy, dz_l, dz_u. -/
theorem c5_sigma_cubed_ratio :
    ∀ {Sys : Type} (lp : LinearProgram) (mu_min mu_max : E)
      (sys_solve : Sys → SolverState → Residual → Sys × Option Step)
      (aff_ls cc_ls : SolverState → Step → E × E) (norm_l2 : List E → E)
      (sys : Sys) (state : SolverState) (sys2 : Sys) (s2 : SolverState)
      (sys1 : Sys) (aff_step : Step),
      MehrotraPredictorCorrector.iterate lp (AdaptiveMuUpdate.get lp mu_min mu_max)
        sys_solve aff_ls cc_ls norm_l2 sys state = (sys2, some s2) →
      sys_solve sys (predictor_state (AdaptiveMuUpdate.get lp mu_min mu_max) state)
        (MehrotraPredictorCorrector.compute_residual lp
          (predictor_state (AdaptiveMuUpdate.get lp mu_min mu_max) state))
        = (sys1, some aff_step) →
      s2.sigma =
        fpow3 (fdiv
          (AdaptiveMuUpdate.get lp mu_min mu_max
            (advance_state (predictor_state (AdaptiveMuUpdate.get lp mu_min mu_max) state)
              (aff_ls (predictor_state (AdaptiveMuUpdate.get lp mu_min mu_max) state) aff_step).1
              (aff_ls (predictor_state (AdaptiveMuUpdate.get lp mu_min mu_max) state) aff_step).2
              aff_step))
          (AdaptiveMuUpdate.get lp mu_min mu_max state)) := by
  intro Sys lp mu_min mu_max sys_solve aff_ls cc_ls norm_l2 sys state sys2 s2 sys1 aff_step h haff
  unfold MehrotraPredictorCorrector.iterate at h
  dsimp only at h
  rw [haff] at h
  dsimp only at h
  split at h
  next sysb opt2 heq2 =>
    simp only [Prod.mk.injEq] at h
    exact absurd h.2 (by simp)
  next sysb corr_step heq2 =>
    simp only [Prod.mk.injEq, Option.some.injEq] at h
    have hs := h.2
    rw [← hs]
    simp only [advance_state, SolverState.set_safety_factor, SolverState.set_sigma_mu,
      predictor_state]

/-- A two-variable one-constraint LP for the concrete C5 run. -/
def lpC5 : LinearProgram :=
  { c := [E.fin 1, E.fin 0], A := [[E.fin 1, E.fin 1]], b := [E.fin 2]
  , l := [E.fin 0, E.ninf], u := [E.pinf, E.fin 3] }

/-- A concrete strictly interior iterate for the C5 run. -/
def stateC5 : SolverState :=
  { stateBase with
    x := [E.fin 1, E.fin 1], y := [E.fin 1], z_l := [E.fin 1, E.fin 0]
  , z_u := [E.fin 0, E.fin (-1)] }

/-- A fixed direction returned by the abstract augmented-system oracle in
the C5 run. -/
def stepC5 : Step :=
  { dx := [E.fin 1, E.fin 0], dy := [E.fin 0], dz_l := [E.fin 0, E.fin 0]
  , dz_u := [E.fin 0, E.fin 0] }

/-- The abstract augmented-system oracle of the C5 run: no mutable data,
always returning the fixed direction. -/
def sysSolveC5 : Unit → SolverState → Residual → Unit × Option Step :=
  fun u _ _ => (u, some stepC5)

/-- Half step lengths for the C5 run. -/
def lsC5 : SolverState → Step → E × E := fun _ _ => (E.fin (1 / 2), E.fin (1 / 2))

/-- Zero norm oracle for the C5 run. -/
def normC5 : List E → E := fun _ => E.fin 0

/-- The concrete completed iteration for C5. -/
def iterC5 : Unit × Option SolverState :=
  MehrotraPredictorCorrector.iterate lpC5 (AdaptiveMuUpdate.get lpC5 mu_min_default mu_max_default)
    sysSolveC5 lsC5 lsC5 normC5 () stateC5

/-- The state produced by the concrete C5 iteration. -/
def iterC5_state : SolverState :=
  match iterC5.2 with
  | some s => s
  | none => stateBase

/-- C5 witness: the theorem applied to the concrete completed iteration. -/
theorem c5_sigma_cubed_ratio_witness :
    iterC5_state.sigma =
      fpow3 (fdiv
        (AdaptiveMuUpdate.get lpC5 mu_min_default mu_max_default
          (advance_state
            (predictor_state (AdaptiveMuUpdate.get lpC5 mu_min_default mu_max_default) stateC5)
            (lsC5 (predictor_state (AdaptiveMuUpdate.get lpC5 mu_min_default mu_max_default) stateC5)
              stepC5).1
            (lsC5 (predictor_state (AdaptiveMuUpdate.get lpC5 mu_min_default mu_max_default) stateC5)
              stepC5).2
            stepC5))
        (AdaptiveMuUpdate.get lpC5 mu_min_default mu_max_default stateC5)) := by
  apply c5_sigma_cubed_ratio lpC5 mu_min_default mu_max_default sysSolveC5 lsC5 lsC5 normC5
    () stateC5 iterC5.1 iterC5_state () stepC5
  · with_unfolding_all rfl
  · with_unfolding_all rfl

lemma vsub_cons (x y : E) (xs ys : List E) :
    vsub (x :: xs) (y :: ys) = fsub x y :: vsub xs ys := rfl

lemma cwise_multiply_finite_cons (x y : E) (xs ys : List E) :
    cwise_multiply_finite (x :: xs) (y :: ys)
      = (if fisFinite x && fisFinite y then fmul x y else E.fin 0) :: cwise_multiply_finite xs ys :=
  rfl

lemma foldl_fadd_masked :
    ∀ (x bd z : List E), all_finite x = true → all_finite z = true →
      ∀ (a : Rat), List.foldl fadd (E.fin a) (cwise_multiply_finite z (vsub x bd))
        = E.fin (a + spec_masked_dot_q x bd z) := by
  intro x
  induction x with
  | nil =>
      intro bd z hx hz a
      simp [vsub, cwise_multiply_finite, spec_masked_dot_q]
  | cons x0 xs ih =>
      intro bd z hx hz a
      cases bd with
      | nil => simp [vsub, cwise_multiply_finite, spec_masked_dot_q]
      | cons b bs =>
          cases z with
          | nil => simp [vsub, cwise_multiply_finite, spec_masked_dot_q]
          | cons z0 zs =>
              simp only [all_finite, List.all_cons, Bool.and_eq_true] at hx hz
              obtain ⟨hx0, hxs⟩ := hx
              obtain ⟨hz0, hzs⟩ := hz
              cases x0 with
              | pinf => exact absurd hx0 (by simp [fisFinite])
              | ninf => exact absurd hx0 (by simp [fisFinite])
              | nan => exact absurd hx0 (by simp [fisFinite])
              | fin qx =>
                  cases z0 with
                  | pinf => exact absurd hz0 (by simp [fisFinite])
                  | ninf => exact absurd hz0 (by simp [fisFinite])
                  | nan => exact absurd hz0 (by simp [fisFinite])
                  | fin qz =>
                      rw [vsub_cons, cwise_multiply_finite_cons]
                      cases b <;>
                        simp only [spec_masked_dot_q, fsub, fneg, fadd, fisFinite, fmul,
                          toRat, Bool.and_self, Bool.and_false, Bool.and_true, Bool.true_and,
                          Bool.false_and, if_true, if_false, List.foldl_cons, ite_true,
                          ite_false, Bool.false_eq_true, Bool.true_eq_false] <;>
                        rw [ih bs zs hxs hzs] <;> congr 1 <;> ring

/-- C6: the adaptive barrier update returns the sum of the two masked
inner products of the spec (each skipping the indices whose bound is
infinite), divided by the number of variables, clamped to the interval
from mu_min to mu_max; and with the default options the clamp interval is
(1e-7, 1e7).  The masked inner products are stated by the independent
rational-valued spec definition. -/
theorem c6_adaptive_mu_formula :
    ∀ (lp : LinearProgram) (mu_min mu_max : E) (state : SolverState),
      all_finite state.x = true → all_finite state.z_l = true → all_finite state.z_u = true →
      AdaptiveMuUpdate.get lp mu_min mu_max state
        = fclamp
            (fdiv
              (E.fin (spec_masked_dot_q state.x lp.l state.z_l
                + spec_masked_dot_q state.x lp.u state.z_u))
              (E.fin (state.x.length : Rat)))
            mu_min mu_max
      ∧ AdaptiveMuUpdate.get lp mu_min_default mu_max_default state
        = fclamp
            (fdiv
              (E.fin (spec_masked_dot_q state.x lp.l state.z_l
                + spec_masked_dot_q state.x lp.u state.z_u))
              (E.fin (state.x.length : Rat)))
            (E.fin (1 / 10000000)) (E.fin 10000000) := by
  intro lp mu_min mu_max state hx hzl hzu
  have key : ∀ mmin mmax : E,
      AdaptiveMuUpdate.get lp mmin mmax state
        = fclamp
            (fdiv
              (E.fin (spec_masked_dot_q state.x lp.l state.z_l
                + spec_masked_dot_q state.x lp.u state.z_u))
              (E.fin (state.x.length : Rat)))
            mmin mmax := by
    intro mmin mmax
    unfold AdaptiveMuUpdate.get
    dsimp only
    have h1 := foldl_fadd_masked state.x lp.l state.z_l hx hzl 0
    have h2 := foldl_fadd_masked state.x lp.u state.z_u hx hzu 0
    unfold vsum
    rw [h1, h2]
    simp only [fadd, zero_add]
  exact ⟨key mu_min mu_max, key mu_min_default mu_max_default⟩

/-- A two-variable LP with one infinite bound on each side for the C6
witness. -/
def lpC6 : LinearProgram :=
  { c := [E.fin 1, E.fin 1], A := [[E.fin 1, E.fin 1]], b := [E.fin 3]
  , l := [E.fin 0, E.ninf], u := [E.pinf, E.fin 5] }

/-- A concrete iterate for the C6 witness. -/
def stateC6 : SolverState :=
  { stateBase with
    x := [E.fin 1, E.fin 2], y := [E.fin 1], z_l := [E.fin 2, E.fin 0]
  , z_u := [E.fin 0, E.fin (-1)] }

/-- C6 witness: the theorem applied at the concrete LP and iterate, where
the masked sums are 2 and 3, the barrier value is 5/2, and the clamp at the
defaults leaves it unchanged. -/
theorem c6_adaptive_mu_formula_witness :
    (all_finite stateC6.x = true ∧ all_finite stateC6.z_l = true
      ∧ all_finite stateC6.z_u = true)
    ∧ AdaptiveMuUpdate.get lpC6 mu_min_default mu_max_default stateC6
        = fclamp
            (fdiv
              (E.fin (spec_masked_dot_q stateC6.x lpC6.l stateC6.z_l
                + spec_masked_dot_q stateC6.x lpC6.u stateC6.z_u))
              (E.fin (stateC6.x.length : Rat)))
            (E.fin (1 / 10000000)) (E.fin 10000000)
    ∧ AdaptiveMuUpdate.get lpC6 mu_min_default mu_max_default stateC6 = E.fin (5 / 2) := by
  refine ⟨⟨by with_unfolding_all decide, by with_unfolding_all decide,
    by with_unfolding_all decide⟩, ?_, ?_⟩
  · exact (c6_adaptive_mu_formula lpC6 mu_min_default mu_max_default stateC6
      (by with_unfolding_all decide) (by with_unfolding_all decide)
      (by with_unfolding_all decide)).2
  · with_unfolding_all decide

lemma dz_recovery_masked (iv sm : E) (hiv : iv = E.pinf ∨ iv = E.ninf)
    (hsm : fisFinite sm = true) :
    ∀ (l x z dx : List E), masked_at iv l z = true → all_finite x = true →
      all_finite dx = true →
      masked_at iv l
        (vsub (vsub (vscale sm (cwise_inverse (vsub x l))) z)
          (cwise_multiply (cwise_multiply (cwise_inverse (vsub x l)) z) dx)) = true := by
  intro l
  induction l with
  | nil => intro x z dx hm hx hdx; rfl
  | cons l0 ls ih =>
      intro x z dx hm hx hdx
      cases x with
      | nil => rfl
      | cons x0 xs =>
          cases z with
          | nil =>
              simp [vsub, vscale, cwise_inverse, cwise_multiply, masked_at]
          | cons z0 zs =>
              cases dx with
              | nil =>
                  simp [vsub, vscale, cwise_inverse, cwise_multiply, masked_at]
              | cons d0 ds =>
                  simp only [all_finite, List.all_cons, Bool.and_eq_true] at hx hdx
                  obtain ⟨hx0, hxs⟩ := hx
                  obtain ⟨hd0, hds⟩ := hdx
                  simp only [masked_at, Bool.and_eq_true] at hm
                  obtain ⟨hm0, hms⟩ := hm
                  have htail := ih xs zs ds hms hxs hds
                  simp only [vsub, vscale, cwise_inverse, cwise_multiply, List.zipWith,
                    List.map, masked_at, Bool.and_eq_true]
                  refine ⟨?_, htail⟩
                  by_cases hl : l0 = iv
                  · subst hl
                    simp only [if_pos rfl] at hm0 ⊢
                    have hz0 : z0 = E.fin 0 := by
                      have := of_decide_eq_true hm0
                      exact this
                    subst hz0
                    obtain ⟨qx, hqx⟩ : ∃ q, x0 = E.fin q := by
                      cases x0 <;> first | exact ⟨_, rfl⟩ | simp [fisFinite] at hx0
                    obtain ⟨qd, hqd⟩ : ∃ q, d0 = E.fin q := by
                      cases d0 <;> first | exact ⟨_, rfl⟩ | simp [fisFinite] at hd0
                    obtain ⟨qs, hqs⟩ : ∃ q, sm = E.fin q := by
                      cases sm <;> first | exact ⟨_, rfl⟩ | simp [fisFinite] at hsm
                    subst hqx
                    subst hqd
                    subst hqs
                    rcases hiv with hp | hn
                    · subst hp
                      simp [fsub, fadd, fneg, fdiv, fmul, mul_zero, zero_mul]
                    · subst hn
                      simp [fsub, fadd, fneg, fdiv, fmul, mul_zero, zero_mul]
                  · simp only [if_neg hl]

/-- C7: for every state satisfying the multiplier-masking invariant (z_l
zero where the lower bound is minus infinity, z_u zero where the upper
bound is plus infinity), with finite sigma times mu, finite x, and an
external kernel returning finite solution columns, the direction recovered
by StandardSystem resolve satisfies dz_l zero at every index with lower
bound minus infinity and dz_u zero at every index with upper bound plus
infinity. -/
theorem c7_resolve_preserves_masking :
    ∀ (lp : LinearProgram) (sys : StandardSystemData) (state : SolverState)
      (residual : Residual) (sys2 : StandardSystemData) (step : Step),
      (∀ v w, sys.lin_solve v = some w → all_finite w = true) →
      fisFinite (fmul state.sigma state.mu) = true →
      all_finite state.x = true →
      masked_at E.ninf lp.l state.z_l = true →
      masked_at E.pinf lp.u state.z_u = true →
      StandardSystem.resolve lp sys state residual = (sys2, some step) →
      masked_at E.ninf lp.l step.dz_l = true ∧ masked_at E.pinf lp.u step.dz_u = true := by
  intro lp sys state residual sys2 step horacle hsm hx hml hmu h
  unfold StandardSystem.resolve at h
  dsimp only at h
  split at h
  next heq =>
    simp only [Prod.mk.injEq] at h
    exact absurd h.2 (by simp)
  next solution heq =>
    simp only [Prod.mk.injEq, Option.some.injEq] at h
    have hsol : all_finite solution = true := horacle _ _ heq
    have hdx : all_finite (solution.take lp.n_vars) = true := by
      simp only [all_finite, List.all_eq_true] at hsol ⊢
      intro e he
      exact hsol e (List.mem_of_mem_take he)
    have hstep := h.2
    constructor
    · rw [← hstep]
      exact dz_recovery_masked E.ninf (fmul state.sigma state.mu) (Or.inr rfl) hsm
        lp.l state.x state.z_l (solution.take lp.n_vars) hml hx hdx
    · rw [← hstep]
      exact dz_recovery_masked E.pinf (fmul state.sigma state.mu) (Or.inl rfl) hsm
        lp.u state.x state.z_u (solution.take lp.n_vars) hmu hx hdx

/-- A two-variable one-constraint LP with one infinite bound on each side
for the C7 witness. -/
def lpC7 : LinearProgram :=
  { c := [E.fin 0, E.fin 0], A := [[E.fin 1, E.fin 1]], b := [E.fin 0]
  , l := [E.ninf, E.fin 0], u := [E.fin 1, E.pinf] }

/-- StandardSystem data for the C7 witness whose external kernel always
returns a fixed finite column of length three. -/
def sysC7 : StandardSystemData :=
  { lin_solve := fun _ => some [E.fin 1, E.fin 1, E.fin 1], diag := [], factorize_count := 0 }

/-- A concrete masked iterate for the C7 witness: z_l is zero at the
index whose lower bound is minus infinity, z_u is zero at the index whose
upper bound is plus infinity. -/
def stateC7 : SolverState :=
  { stateBase with
    x := [E.fin 0, E.fin 1], y := [E.fin 1], z_l := [E.fin 0, E.fin 1]
  , z_u := [E.fin (-1), E.fin 0], sigma := E.fin 1, mu := E.fin 1 }

/-- The zero residual used in the C7 witness. -/
def residualC7 : Residual :=
  { dual_feasibility := [E.fin 0, E.fin 0], primal_feasibility := [E.fin 0]
  , cs_lower := [E.fin 0, E.fin 0], cs_upper := [E.fin 0, E.fin 0] }

/-- The step produced by the concrete C7 resolve. -/
def stepC7 : Step :=
  match (StandardSystem.resolve lpC7 sysC7 stateC7 residualC7).2 with
  | some s => s
  | none => { dx := [], dy := [], dz_l := [], dz_u := [] }

/-- C7 witness: the theorem applied to the concrete resolve, whose
recovered direction keeps the masked multiplier components at zero. -/
theorem c7_resolve_preserves_masking_witness :
    masked_at E.ninf lpC7.l stepC7.dz_l = true
    ∧ masked_at E.pinf lpC7.u stepC7.dz_u = true := by
  apply c7_resolve_preserves_masking lpC7 sysC7 stateC7 residualC7
    (StandardSystem.resolve lpC7 sysC7 stateC7 residualC7).1 stepC7
  · intro v w hw
    cases hw
    with_unfolding_all decide
  · with_unfolding_all decide
  · with_unfolding_all decide
  · with_unfolding_all decide
  · with_unfolding_all decide
  · with_unfolding_all rfl

/-- C8: evaluating the kernel selection of the LP solver builder at the
solver type MpcSimplicialLu yields the simplicial Cholesky kernel, not the
sparse LU kernel the variant name and the spec promise; only two of the
three kernels are ever selected. -/
theorem c8_lu_variant_builds_cholesky_eval :
    LPSolverBuilder.build_kernel LPSolverType.MpcSimplicialLu
        = LinearSolverKernel.simplicialCholesky
    ∧ ¬ (LPSolverBuilder.build_kernel LPSolverType.MpcSimplicialLu
        = LinearSolverKernel.simplicialLu)
    ∧ ∀ t : LPSolverType, ¬ (LPSolverBuilder.build_kernel t = LinearSolverKernel.simplicialLu) := by
  refine ⟨rfl, by decide, ?_⟩
  intro t
  cases t <;> decide

/-- C9: for both Cholesky variants, the factorize guard returns the
Uninitialized error without touching the state whenever the symbolic
analysis is absent, and solve_in_place (hence the solve wrapper) returns
the Uninitialized error without touching the state whenever the ldlt
factorization is absent; a fresh solver has no symbolic analysis and no
factorization, analyze never sets the factorization, and a failing
factorize leaves it unset — so any solve before a successful factorize,
or factorize before a successful analyze, returns Uninitialized. -/
theorem c9_uninitialized_guards :
    ∀ (aout : AnalyzeOutcome) (fout : FactorizeOutcome) (sout : SolveOutcome)
      (s : SimplicialSparseCholesky) (t : SupernodalSparseCholesky),
      (s.ldlt = false →
        SimplicialSparseCholesky.solve_in_place sout s = (s, some LinearSolverError.Uninitialized))
      ∧ (s.ldlt = false →
        SimplicialSparseCholesky.solve sout s = (s, some LinearSolverError.Uninitialized))
      ∧ (s.symbolic = false →
        SimplicialSparseCholesky.factorize fout s = (s, some LinearSolverError.Uninitialized))
      ∧ (SimplicialSparseCholesky.new.symbolic = false ∧ SimplicialSparseCholesky.new.perm = false
        ∧ SimplicialSparseCholesky.new.ldlt = false)
      ∧ ((SimplicialSparseCholesky.analyze aout s).1.ldlt = s.ldlt)
      ∧ ((SimplicialSparseCholesky.factorize fout s).2 ≠ none →
        (SimplicialSparseCholesky.factorize fout s).1.ldlt = s.ldlt)
      ∧ (t.ldlt = false →
        SupernodalSparseCholesky.solve_in_place sout t = (t, some LinearSolverError.Uninitialized))
      ∧ (t.ldlt = false →
        SupernodalSparseCholesky.solve sout t = (t, some LinearSolverError.Uninitialized))
      ∧ (t.symbolic = false →
        SupernodalSparseCholesky.factorize fout t = (t, some LinearSolverError.Uninitialized))
      ∧ (SupernodalSparseCholesky.new.symbolic = false ∧ SupernodalSparseCholesky.new.perm = false
        ∧ SupernodalSparseCholesky.new.ldlt = false)
      ∧ ((SupernodalSparseCholesky.analyze aout t).1.ldlt = t.ldlt)
      ∧ ((SupernodalSparseCholesky.factorize fout t).2 ≠ none →
        (SupernodalSparseCholesky.factorize fout t).1.ldlt = t.ldlt) := by
  intro aout fout sout s t
  refine ⟨?_, ?_, ?_, ⟨rfl, rfl, rfl⟩, ?_, ?_, ?_, ?_, ?_, ⟨rfl, rfl, rfl⟩, ?_, ?_⟩
  · intro h
    cases hs : s.symbolic <;> cases hp : s.perm <;>
      simp [SimplicialSparseCholesky.solve_in_place, h, hs, hp]
  · intro h
    cases hs : s.symbolic <;> cases hp : s.perm <;>
      simp [SimplicialSparseCholesky.solve, SimplicialSparseCholesky.solve_in_place, h, hs, hp]
  · intro h
    simp [SimplicialSparseCholesky.factorize, h]
  · unfold SimplicialSparseCholesky.analyze
    split_ifs <;> rfl
  · unfold SimplicialSparseCholesky.factorize
    split_ifs <;> intro h <;> first | rfl | exact absurd rfl h
  · intro h
    cases hs : t.symbolic <;> cases hp : t.perm <;>
      simp [SupernodalSparseCholesky.solve_in_place, h, hs, hp]
  · intro h
    cases hs : t.symbolic <;> cases hp : t.perm <;>
      simp [SupernodalSparseCholesky.solve, SupernodalSparseCholesky.solve_in_place, h, hs, hp]
  · intro h
    simp [SupernodalSparseCholesky.factorize, h]
  · unfold SupernodalSparseCholesky.analyze
    split_ifs <;> rfl
  · unfold SupernodalSparseCholesky.factorize
    split_ifs <;> intro h <;> first | rfl | exact absurd rfl h

/-- All-success external outcomes for the C9 witness analyze calls. -/
def aoutC9 : AnalyzeOutcome :=
  { reserve_ok := true, amd_alloc_ok := true, amd_ok := true, triangle_ok := true
  , symbolic_alloc_ok := true, symbolic_ok := true }

/-- All-success external outcomes for the C9 witness factorize calls. -/
def foutC9 : FactorizeOutcome :=
  { reserve_ok := true, triangle_ok := true, alloc_ok := true, numeric_ok := true }

/-- All-success external outcome for the C9 witness solve calls. -/
def soutC9 : SolveOutcome := { alloc_ok := true }

/-- C9 witness: the theorem applied at fresh solvers with all-success
external outcomes: a fresh simplicial solver refuses solve_in_place and
solve with Uninitialized, a fresh supernodal solver refuses factorize with
Uninitialized, and after a successful simplicial analyze the factorization
is still absent so solve_in_place still refuses with Uninitialized. -/
theorem c9_uninitialized_guards_witness :
    SimplicialSparseCholesky.solve_in_place soutC9 SimplicialSparseCholesky.new
        = (SimplicialSparseCholesky.new, some LinearSolverError.Uninitialized)
    ∧ SimplicialSparseCholesky.solve soutC9 SimplicialSparseCholesky.new
        = (SimplicialSparseCholesky.new, some LinearSolverError.Uninitialized)
    ∧ SupernodalSparseCholesky.factorize foutC9 SupernodalSparseCholesky.new
        = (SupernodalSparseCholesky.new, some LinearSolverError.Uninitialized)
    ∧ SimplicialSparseCholesky.solve_in_place soutC9
          (SimplicialSparseCholesky.analyze aoutC9 SimplicialSparseCholesky.new).1
        = ((SimplicialSparseCholesky.analyze aoutC9 SimplicialSparseCholesky.new).1,
            some LinearSolverError.Uninitialized) := by
  refine ⟨?_, ?_, ?_, ?_⟩
  · exact (c9_uninitialized_guards aoutC9 foutC9 soutC9 SimplicialSparseCholesky.new
      SupernodalSparseCholesky.new).1 rfl
  · exact (c9_uninitialized_guards aoutC9 foutC9 soutC9 SimplicialSparseCholesky.new
      SupernodalSparseCholesky.new).2.1 rfl
  · exact (c9_uninitialized_guards aoutC9 foutC9 soutC9 SimplicialSparseCholesky.new
      SupernodalSparseCholesky.new).2.2.2.2.2.2.2.2.1 rfl
  · exact (c9_uninitialized_guards aoutC9 foutC9 soutC9
      (SimplicialSparseCholesky.analyze aoutC9 SimplicialSparseCholesky.new).1
      SupernodalSparseCholesky.new).1 (by decide)

/-- C10: (first part) every successful call of the MPC iterate returns a
state whose status field is InProgress, since the iterate sets it
unconditionally last; (second part) consequently the in-loop early-return
branch of solve that fires on a status other than InProgress after iterate
is never taken, and a successful solve returns only a status produced by
the terminator or IterationLimit when the loop bound is exhausted. -/
theorem c10_status_inprogress_and_solve_statuses :
    ∀ {Sys : Type} (lp : LinearProgram) (mu_get : SolverState → E)
      (sys_solve : Sys → SolverState → Residual → Sys × Option Step)
      (aff_ls cc_ls : SolverState → Step → E × E) (norm_l2 : List E → E)
      (terminator : SolverState → Option Status) (max_iterations : Nat)
      (sys : Sys) (state : SolverState),
      (∀ (sys0 : Sys) (s0 : SolverState) (sys1 : Sys) (s1 : SolverState),
        MehrotraPredictorCorrector.iterate lp mu_get sys_solve aff_ls cc_ls norm_l2 sys0 s0
          = (sys1, some s1) →
        s1.status = Status.InProgress)
      ∧ (∀ (sys2 : Sys) (st : Status) (sfin : SolverState),
        MehrotraPredictorCorrector.solve lp mu_get sys_solve aff_ls cc_ls norm_l2 terminator
          max_iterations sys state = (sys2, some (st, sfin)) →
        (∃ s1, terminator s1 = some st) ∨ st = Status.IterationLimit) := by
  intro Sys lp mu_get sys_solve aff_ls cc_ls norm_l2 terminator max_iterations sys state
  have hiter : ∀ (sys0 : Sys) (s0 : SolverState) (sys1 : Sys) (s1 : SolverState),
      MehrotraPredictorCorrector.iterate lp mu_get sys_solve aff_ls cc_ls norm_l2 sys0 s0
        = (sys1, some s1) → s1.status = Status.InProgress := by
    intro sys0 s0 sys1 s1 h
    unfold MehrotraPredictorCorrector.iterate at h
    dsimp only at h
    split at h
    next heq =>
      simp only [Prod.mk.injEq] at h
      exact absurd h.2 (by simp)
    next aff_step heq =>
      split at h
      next heq2 =>
        simp only [Prod.mk.injEq] at h
        exact absurd h.2 (by simp)
      next corr_step heq2 =>
        simp only [Prod.mk.injEq, Option.some.injEq] at h
        rw [← h.2]
  have hloop : ∀ (fuel k : Nat) (sysa : Sys) (sa : SolverState) (sys2 : Sys) (st : Status)
      (sfin : SolverState),
      MehrotraPredictorCorrector.solve_loop lp mu_get sys_solve aff_ls cc_ls norm_l2 terminator
        fuel k sysa sa = (sys2, some (st, sfin)) →
      (∃ s1, terminator s1 = some st) ∨ st = Status.IterationLimit := by
    intro fuel
    induction fuel with
    | zero =>
        intro k sysa sa sys2 st sfin h
        unfold MehrotraPredictorCorrector.solve_loop at h
        injection h with h1 h2
        injection h2 with h3
        injection h3 with h4 h5
        exact Or.inr h4.symm
    | succ fuel ih =>
        intro k sysa sa sys2 st sfin h
        unfold MehrotraPredictorCorrector.solve_loop at h
        dsimp only at h
        split at h
        next heq =>
          simp only [Prod.mk.injEq] at h
          exact absurd h.2 (by simp)
        next sysb s1 heq =>
          have hst : s1.status = Status.InProgress := hiter _ _ _ _ heq
          rw [if_pos hst] at h
          split at h
          next st0 heq2 =>
            injection h with h1 h2
            injection h2 with h3
            injection h3 with h4 h5
            left
            refine ⟨s1, ?_⟩
            rw [heq2, h4]
          next heq2 =>
            exact ih (k + 1) sysb s1 sys2 st sfin h
  refine ⟨hiter, ?_⟩
  intro sys2 st sfin h
  unfold MehrotraPredictorCorrector.solve at h
  exact hloop _ _ _ _ _ _ _ h

/-- A tiny LP for the concrete C10 run. -/
def lpC10 : LinearProgram :=
  { c := [E.fin 0], A := [[E.fin 1]], b := [E.fin 0], l := [E.fin 0], u := [E.pinf] }

/-- A concrete strictly interior iterate for the C10 run. -/
def stateC10 : SolverState :=
  { stateBase with x := [E.fin 1], y := [E.fin 1], z_l := [E.fin 1], z_u := [E.fin 0] }

/-- The abstract augmented-system oracle of the C10 run: no mutable data,
always returning the zero direction. -/
def sysSolveC10 : Unit → SolverState → Residual → Unit × Option Step :=
  fun u _ _ =>
    (u, some { dx := [E.fin 0], dy := [E.fin 0], dz_l := [E.fin 0], dz_u := [E.fin 0] })

/-- Constant barrier value one for the C10 run. -/
def muC10 : SolverState → E := fun _ => E.fin 1

/-- Constant unit step lengths for the C10 run. -/
def lsC10 : SolverState → Step → E × E := fun _ _ => (E.fin 1, E.fin 1)

/-- Zero norm oracle for the C10 run. -/
def normC10 : List E → E := fun _ => E.fin 0

/-- A terminator that always fires with Optimal for the C10 run. -/
def termC10 : SolverState → Option Status := fun _ => some Status.Optimal

/-- The concrete solve run for C10, with an iteration cap of one. -/
def solveC10 : Unit × Option (Status × SolverState) :=
  MehrotraPredictorCorrector.solve lpC10 muC10 sysSolveC10 lsC10 lsC10 normC10 termC10 1
    () stateC10

/-- The status returned by the concrete C10 run. -/
def solveC10_status : Status :=
  match solveC10.2 with
  | some p => p.1
  | none => Status.Unknown

/-- The final state of the concrete C10 run. -/
def solveC10_state : SolverState :=
  match solveC10.2 with
  | some p => p.2
  | none => stateBase

/-- C10 witness: the theorem applied to the concrete run, whose returned
status is produced by the terminator (or is the iteration limit). -/
theorem c10_status_inprogress_and_solve_statuses_witness :
    (∃ s1, termC10 s1 = some solveC10_status) ∨ solveC10_status = Status.IterationLimit := by
  apply (c10_status_inprogress_and_solve_statuses lpC10 muC10 sysSolveC10 lsC10 lsC10 normC10
    termC10 1 () stateC10).2 solveC10.1 solveC10_status solveC10_state
  with_unfolding_all rfl
